import Mathlib

/-!
# Verification of the gebeh web front-end protocol layer

A shallow embedding, in Lean 4, of the message-protocol layer of the
gebeh Game Boy emulator web front-end:

* the control-thread controller (`gebeh-web/ts/index.ts`): ROM selection,
  the pending-ROM slot (`notReadyRom`), the `ready` handler, the `frame`
  decoder, and the cartridge-title extraction `getTitleFromRom`;
* the audio-thread host (`WasmProcessor` in the worklet): the `process`
  callback, the `rom`/`wasm` message handlers and the `poor_mans_time`
  autosave counter;
* the on-screen directional pad (`applyDpadState` and friends);
* the save-persistence adapter (`writeSave` / `getSave`), with the
  IndexedDB object store modelled as a key → blob map.

Bytes are modelled as natural numbers < 256, byte arrays as `List ℕ`,
audio sample buffers as lists over an arbitrary type with a zero.
`TextDecoder("utf-8", { fatal: true })` is modelled by the WHATWG UTF-8
decode algorithm (strict, no replacement), returning `none` on invalid
input where the web API throws.
-/

set_option maxRecDepth 8192

namespace Gebeh

/-- A byte array (each entry intended < 256). -/
abbrev Bytes := List ℕ

/-! ## Frame decoding (controller, `frame` message handler)

```ts
for (const [index, byte] of new Uint8Array(data.buffer).entries()) {
  for (let index_2bits = 0; index_2bits < 4; ++index_2bits) {
    const gray = (((byte >> (6 - 2 * index_2bits)) & 0b11) * 255) / 3;
    const index_color = (index * 4 + index_2bits) * 4;
    data[index_color] = gray;
    data[index_color + 1] = gray;
    data[index_color + 2] = gray;
    data[index_color + 3] = 255;
  }
}
```
-/

/-- The gray level the controller computes for the `index_2bits`-th 2-bit
pixel of a source byte: `((byte >> (6 - 2*i)) & 0b11) * 255 / 3`.
The JS float division is exact here (the masked value is 0..3), so integer
division agrees with it. -/
def grayOfPair (byte i2 : ℕ) : ℕ :=
  ((byte >>> (6 - 2 * i2)) &&& 0b11) * 255 / 3

/-- The 16 RGBA bytes the controller writes for one source byte, in write
order: four pixels, each contributing `[gray, gray, gray, 255]`. -/
def decodeByte (byte : ℕ) : Bytes :=
  (List.range 4).flatMap fun i2 =>
    let gray := grayOfPair byte i2
    [gray, gray, gray, 255]

/-- The full RGBA stream the controller's `frame` handler writes for an
input byte stream, in write order. -/
def decodeFrame (bytes : Bytes) : Bytes :=
  bytes.flatMap decodeByte

/-- Spec-side pixel extraction, following the spec's words: "from each
source byte the four pixels are extracted most-significant-pair-first". -/
def specPixelsOfByte (b : ℕ) : List ℕ :=
  [b / 64 % 4, b / 16 % 4, b / 4 % 4, b % 4]

/-- Spec-side luminance mapping, following the spec's words: "each 2-bit
value v in \x7b0,1,2,3\x7d maps to luminance v * 255 / 3". -/
def specLuminance (v : ℕ) : ℕ := v * 255 / 3

/-- Spec-side RGBA quadruple: "that luminance is written to the R, G and B
bytes, and the alpha byte is 255". -/
def specRGBA (v : ℕ) : List ℕ :=
  [specLuminance v, specLuminance v, specLuminance v, 255]

/-- Spec-side frame decode: one RGBA quadruple per 2-bit source pixel,
pixels extracted most-significant-pair-first. -/
def specDecodeFrame (bytes : Bytes) : Bytes :=
  bytes.flatMap fun b => (specPixelsOfByte b).flatMap specRGBA

theorem decodeByte_eq_spec (b : ℕ) (hb : b < 256) :
    decodeByte b = (specPixelsOfByte b).flatMap specRGBA := by
  have : ∀ x : Fin 256,
      decodeByte x.val = (specPixelsOfByte x.val).flatMap specRGBA := by decide
  exact this ⟨b, hb⟩

/-- **C6.** The controller's frame decode agrees, on every byte stream,
with the spec's description: one RGBA quadruple per 2-bit source pixel,
pixels extracted most-significant-pair-first, each 2-bit value `v` mapped
to luminance `v * 255 / 3` written to R, G and B, and alpha 255. -/
theorem frame_decode_correct (bytes : Bytes) (hb : ∀ b ∈ bytes, b < 256) :
    decodeFrame bytes = specDecodeFrame bytes := by
  unfold decodeFrame specDecodeFrame
  induction bytes with
  | nil => rfl
  | cons b bs ih =>
    simp only [List.flatMap_cons]
    rw [decodeByte_eq_spec b (hb b (List.mem_cons_self b bs)),
      ih fun x hx => hb x (List.mem_cons_of_mem b hx)]

/-- Witness for `frame_decode_correct` at the concrete stream `[0x1B, 0xC6]`. -/
theorem frame_decode_correct_witness :
    (∀ b ∈ ([0x1B, 0xC6] : Bytes), b < 256) ∧
      decodeFrame [0x1B, 0xC6] = specDecodeFrame [0x1B, 0xC6] :=
  ⟨by decide, frame_decode_correct [0x1B, 0xC6] (by decide)⟩

/-- **C7, counterexample.** The claim says 2-bit value 0 maps to luminance
255 and an all-zero input decodes to an all-white frame. On the code the
luminance of value 0 is 0, and decoding the all-zero byte `[0]` yields
four black pixels `[0,0,0,255]`, not four white ones. -/
theorem frame_zero_not_white :
    grayOfPair 0 0 = 0 ∧ grayOfPair 0 0 ≠ 255 ∧
      decodeFrame [0] = [0, 0, 0, 255, 0, 0, 0, 255, 0, 0, 0, 255, 0, 0, 0, 255] ∧
      decodeFrame [0] ≠
        [255, 255, 255, 255, 255, 255, 255, 255,
          255, 255, 255, 255, 255, 255, 255, 255] := by
  refine ⟨by decide, by decide, by decide, by decide⟩

/-- **C7, amended.** Every 2-bit pixel value maps to luminance
`v * 255 / 3` exactly — 0 ↦ 0, 1 ↦ 85, 2 ↦ 170, 3 ↦ 255 — so decoding an
all-zero input byte stream produces an all-black output frame (every R, G
and B byte is 0 and every alpha byte is 255). -/
theorem frame_decode_zero_black :
    (grayOfPair 0 3 = 0 ∧ grayOfPair 1 3 = 85 ∧
      grayOfPair 2 3 = 170 ∧ grayOfPair 3 3 = 255) ∧
    ∀ n : ℕ, decodeFrame (List.replicate n 0) =
      (List.replicate (4 * n) ([0, 0, 0, 255] : List ℕ)).flatten := by
  refine ⟨by decide, fun n => ?_⟩
  induction n with
  | zero => rfl
  | succ m ih =>
    have h4 : 4 * (m + 1) = 4 + 4 * m := by ring
    rw [List.replicate_succ, h4, List.replicate_add, List.flatten_append]
    show decodeByte 0 ++ decodeFrame (List.replicate m 0) = _
    rw [ih]
    rfl

/-! ## The controller's pending-ROM slot (`index.ts`)

```ts
let isNodeReady = false;
let notReadyRom: Uint8Array | undefined;

romInput.addEventListener("change", async () => {
  ...
  if (isNodeReady) {
    const save = await getSave(getTitleFromRom(new Uint8Array(bytes)));
    node.port.postMessage({ type: "rom", bytes, save }, ...);
  } else {
    notReadyRom = bytes;
  }
});

case "ready": {
  isNodeReady = true;
  if (notReadyRom) {
    const save = await getSave(getTitleFromRom(new Uint8Array(notReadyRom)));
    port.postMessage({ type: "rom", bytes: notReadyRom, save }, ...);
  }
  break;
}
```
Note the `ready` handler never assigns `notReadyRom = undefined`.
-/

/-- A posted `\x7btype: "rom"\x7d` message: the ROM bytes and the save found
by the `getSave(getTitleFromRom(...))` lookup. -/
structure RomMsg where
  bytes : Bytes
  save : Option Bytes
  deriving DecidableEq, Repr

/-- The mutable module-level state of the controller relevant to ROM
selection, plus the trace of `rom` messages posted to the worklet node. -/
structure CtrlState where
  isNodeReady : Bool
  notReadyRom : Option Bytes
  sent : List RomMsg
  deriving DecidableEq, Repr

/-- The controller's initial state: not ready, empty pending slot. -/
def ctrlInit : CtrlState := ⟨false, none, []⟩

/-- The save lookup `await getSave(getTitleFromRom(rom))` as an environment
parameter: `.ok save?` when title extraction and the store lookup succeed,
`.error ()` when `getTitleFromRom` throws (in which case the async handler
rejects before posting anything). -/
abbrev SaveLookup := Bytes → Except Unit (Option Bytes)

/-- The `change` handler of the ROM file input: if the node is ready, look
up the save and post the ROM; otherwise overwrite the pending slot. -/
def onSelect (env : SaveLookup) (s : CtrlState) (bytes : Bytes) : CtrlState :=
  if s.isNodeReady then
    match env bytes with
    | .ok save => { s with sent := s.sent ++ [⟨bytes, save⟩] }
    | .error _ => s
  else
    { s with notReadyRom := some bytes }

/-- The `ready` message handler: set `isNodeReady`, and if the pending slot
is occupied, re-resolve the save lookup and post the pending ROM. The slot
is left untouched. -/
def onReady (env : SaveLookup) (s : CtrlState) : CtrlState :=
  let s1 := { s with isNodeReady := true }
  match s1.notReadyRom with
  | none => s1
  | some rom =>
    match env rom with
    | .ok save => { s1 with sent := s1.sent ++ [⟨rom, save⟩] }
    | .error _ => s1

/-- Folding the `change` handler over a sequence of selections while the
node is not ready: nothing is sent, readiness stays false, and the pending
slot ends up holding exactly the last selection. -/
theorem foldl_onSelect_notReady (env : SaveLookup) (sels : List Bytes) :
    ∀ s : CtrlState, s.isNodeReady = false →
      (sels.foldl (onSelect env) s).isNodeReady = false ∧
      (sels.foldl (onSelect env) s).sent = s.sent ∧
      (sels.foldl (onSelect env) s).notReadyRom =
        (match sels.getLast? with
          | none => s.notReadyRom
          | some r => some r) := by
  induction sels with
  | nil => intro s hs; exact ⟨hs, rfl, rfl⟩
  | cons a l ih =>
    intro s hs
    have hstep : onSelect env s a = { s with notReadyRom := some a } := by
      unfold onSelect; rw [hs]; simp
    rw [List.foldl_cons, hstep]
    obtain ⟨h1, h2, h3⟩ := ih { s with notReadyRom := some a } (by simp [hs])
    refine ⟨h1, h2, ?_⟩
    rw [h3]
    cases l with
    | nil => simp
    | cons b m =>
      rw [List.getLast?_cons_cons]
      cases hg : (b :: m).getLast? with
      | none => rw [List.getLast?_eq_none_iff] at hg; exact absurd hg (by simp)
      | some r => rfl

/-- **C1.** For every save-lookup environment and every sequence of ROM
selections performed before the host's `ready` message: no `rom` message
is posted during the selections, and after `ready` is handled the trace of
posted `rom` messages contains only the last-selected ROM, paired with its
save lookup (and nothing at all if that lookup throws or there was no
selection). No earlier selection is ever transmitted. -/
theorem last_selection_only (env : SaveLookup) (sels : List Bytes) :
    (sels.foldl (onSelect env) ctrlInit).sent = [] ∧
    (onReady env (sels.foldl (onSelect env) ctrlInit)).sent =
      (match sels.getLast? with
        | none => []
        | some r =>
          match env r with
          | .ok save => [⟨r, save⟩]
          | .error _ => []) := by
  obtain ⟨_, h2, h3⟩ := foldl_onSelect_notReady env sels ctrlInit rfl
  have h2' : (sels.foldl (onSelect env) ctrlInit).sent = [] := h2
  refine ⟨h2', ?_⟩
  cases hl : sels.getLast? with
  | none =>
    rw [hl] at h3
    have h3' : (sels.foldl (onSelect env) ctrlInit).notReadyRom = none := h3
    simp [onReady, h3', h2']
  | some r =>
    rw [hl] at h3
    have h3' : (sels.foldl (onSelect env) ctrlInit).notReadyRom = some r := h3
    cases henv : env r with
    | ok sv => simp [onReady, h3', h2', henv]
    | error e => simp [onReady, h3', h2', henv]

/-- **C2, counterexample.** The claim says the `ready` handler "clears the
pending slot (the slot holds no ROM afterwards)". It does not: starting
from a state whose slot holds the ROM `[1, 2, 3]`, after the `ready`
handler runs (with a save lookup that finds nothing) the slot still holds
`[1, 2, 3]` — the handler never assigns `notReadyRom = undefined`. -/
theorem ready_does_not_clear_slot :
    (onReady (fun _ => .ok none) ⟨false, some [1, 2, 3], []⟩).notReadyRom ≠ none ∧
    (onReady (fun _ => .ok none) ⟨false, some [1, 2, 3], []⟩).notReadyRom =
      some [1, 2, 3] := by
  refine ⟨by decide, by decide⟩

/-- **C2, amended.** When the controller receives `ready`, it sets
`isNodeReady = true`; if the pending slot is occupied it re-resolves the
save lookup for that ROM and posts the ROM with the found save (posting
nothing if the lookup throws), but it does **not** clear the slot: the
`notReadyRom` variable still holds the same ROM afterwards (only the
underlying buffer has been transferred away by `postMessage`). -/
theorem ready_handler_behavior (env : SaveLookup) (s : CtrlState) (rom : Bytes)
    (h : s.notReadyRom = some rom) :
    (onReady env s).isNodeReady = true ∧
    (onReady env s).notReadyRom = some rom ∧
    (onReady env s).sent =
      (match env rom with
        | .ok save => s.sent ++ [⟨rom, save⟩]
        | .error _ => s.sent) := by
  unfold onReady
  simp only [h]
  cases env rom <;> simp

/-- Witness for `ready_handler_behavior` at a concrete state and lookup. -/
theorem ready_handler_behavior_witness :
    (⟨false, some [7], []⟩ : CtrlState).notReadyRom = some [7] ∧
      ((onReady (fun _ => .ok (some [9])) ⟨false, some [7], []⟩).isNodeReady = true ∧
        (onReady (fun _ => .ok (some [9])) ⟨false, some [7], []⟩).notReadyRom = some [7] ∧
        (onReady (fun _ => .ok (some [9])) ⟨false, some [7], []⟩).sent =
          (match (fun _ => .ok (some [9]) : SaveLookup) [7] with
            | .ok save => [] ++ [⟨[7], save⟩]
            | .error _ => [])) :=
  ⟨rfl, ready_handler_behavior (fun _ => .ok (some [9])) ⟨false, some [7], []⟩ [7] rfl⟩

/-! ## The audio-thread host (`WasmProcessor` in the worklet)

Message types from `common.ts`; handler and `process` from the worklet
source. The emulation engine (`WebEmulator`, wasm) is an external
collaborator: it is modelled as a record of the state the host can affect
through its capability set, and `drive_and_sample` / `get_save` are
parameters of `process`.
-/

/-- `GebehButton` from `common.ts`. -/
inductive GebehButton
  | a | b | start | select | left | right | up | down
  deriving DecidableEq, Repr

/-- A button edge: `"down" | "up"`. -/
inductive InputEdge
  | down | up
  deriving DecidableEq, Repr

/-- `FromMainMessage` from `common.ts`. -/
inductive FromMainMessage
  | rom (bytes : Bytes) (save : Option Bytes)
  | wasm (bytes : Bytes)
  | input (event : InputEdge) (button : GebehButton)
  | disableMessages
  | enableMessages
  deriving DecidableEq, Repr

/-- `FromNodeMessage` from `common.ts` (titles as code-point lists). -/
inductive FromNodeMessage
  | ready
  | wasm
  | frame (buffer : Bytes)
  | save (buffer : Bytes) (title : List ℕ)
  deriving DecidableEq, Repr

/-- The engine state the host can reach through the `WebEmulator`
capability set: the ROM/save last passed to `load_rom`, and the per-button
flags set through `set_a` … `set_down`. -/
structure WebEmulator where
  loadedRom : Option (Bytes × Option Bytes) := none
  buttons : GebehButton → Bool := fun _ => false

/-- `load_rom(bytes, save?)`. -/
def WebEmulator.load_rom (e : WebEmulator) (bytes : Bytes) (save : Option Bytes) :
    WebEmulator :=
  { e with loadedRom := some (bytes, save) }

/-- The per-button setter the `input` handler dispatches to. -/
def WebEmulator.setButton (e : WebEmulator) (btn : GebehButton) (v : Bool) :
    WebEmulator :=
  { e with buttons := fun x => if x = btn then v else e.buttons x }

def GB_WIDTH : ℕ := 160
def GB_HEIGHT : ℕ := 144

/-- The fields of `WasmProcessor`, plus the trace of messages it posts. -/
structure HostState where
  emulator : Option WebEmulator
  currentFrame : Bytes
  poorMansTime : ℕ
  sent : List FromNodeMessage

/-- `WasmProcessor` right after construction: no emulator, a zero-filled
frame buffer, counter 0, and one posted `\x7btype: "wasm"\x7d` request. -/
def hostInit : HostState :=
  ⟨none, List.replicate (GB_WIDTH * GB_HEIGHT) 0, 0, [.wasm]⟩

/-- The worklet's `message` handler:
* `rom` — `this.emulator?.load_rom(bytes, save)`: a no-op when no emulator
  has been instantiated yet (optional chaining);
* `wasm` — `initSync`, `this.emulator = new WebEmulator()`, post `ready`;
* `input` — `this.emulator?.set_<button>(event === "down")`;
* other tags — ignored (no switch case). -/
def hostOnMessage (s : HostState) : FromMainMessage → HostState
  | .rom bytes save =>
    match s.emulator with
    | none => s
    | some e => { s with emulator := some (e.load_rom bytes save) }
  | .wasm _ => { s with emulator := some {}, sent := s.sent ++ [.ready] }
  | .input ev btn =>
    match s.emulator with
    | none => s
    | some e => { s with emulator := some (e.setButton btn (ev = .down)) }
  | .disableMessages => s
  | .enableMessages => s

/-- Deliver a sequence of control messages to the host. -/
def runHost (s : HostState) (msgs : List FromMainMessage) : HostState :=
  msgs.foldl hostOnMessage s

/-- Whether a control message is a `rom` message. -/
def FromMainMessage.isRomMsg : FromMainMessage → Bool
  | .rom _ _ => true
  | _ => false

/-! ### The autosave counter

```ts
this.poor_mans_time =
  (this.poor_mans_time + 1) % Math.round((sampleRate / 128) * 5);
if (this.poor_mans_time === 0) { ... post save ... }
```
-/

/-- `Math.round((sampleRate / 128) * 5)` — the counter's wrap period, in
audio quanta of 128 frames. -/
def wrapPeriod (sr : ℚ) : ℕ :=
  (round (sr / 128 * 5)).toNat

/-- One advance of `poor_mans_time` (executed once per `process` call). -/
def tickTime (sr : ℚ) (t : ℕ) : ℕ :=
  (t + 1) % wrapPeriod sr

/-- `k` audio quanta of the counter, starting from 0: final counter value
and the number of times a save was emitted (the counter hit 0). -/
def runCounter (sr : ℚ) : ℕ → ℕ × ℕ
  | 0 => (0, 0)
  | k + 1 =>
    let p := runCounter sr k
    let t' := tickTime sr p.1
    (t', if t' = 0 then p.2 + 1 else p.2)

/-- The wall-clock time between two autosaves: the wrap period in quanta,
times 128 frames per quantum, divided by the sample rate (in frames per
second). -/
def autosavePeriodSeconds (sr : ℚ) : ℚ :=
  (wrapPeriod sr : ℚ) * 128 / sr

/-- What `drive_and_sample` may do, from the host's point of view: produce
the two output buffers, optionally fill the frame buffer and invoke the
frame callback (at most once), and evolve the engine. -/
abbrev DriveFn (α : Type) :=
  WebEmulator → List α → List α → ℚ → Bytes →
    List α × List α × Option Bytes × WebEmulator

/-- What `get_save` may return: `some (ram, title)` or nothing. -/
abbrev GetSaveFn := WebEmulator → Option (Bytes × List ℕ)

/-- Replace the first two channels of the first output bus (the buffers
`drive_and_sample` wrote into). -/
def setChans {α : Type} (outputs : List (List (List α))) (l' r' : List α) :
    List (List (List α)) :=
  match outputs with
  | [] => []
  | bus0 :: rest => (l' :: r' :: bus0.drop 2) :: rest

/-- The real-time `process` callback of `WasmProcessor` (worklet source):
read `outputs[0]?.[0]` and `outputs[0]?.[1]`; throw `"No stereo"` if either
is missing; if no emulator is instantiated return immediately (the
zero-initialised output buffers are left untouched); otherwise drive the
engine, post a `frame` message if the frame callback fired, advance
`poor_mans_time`, and at wrap-around post a `save` message if the engine
has one. -/
def process {α : Type} (drive : DriveFn α) (getSaveSnap : GetSaveFn)
    (sr : ℚ) (st : HostState) (outputs : List (List (List α))) :
    Except String (HostState × List (List (List α)) × List FromNodeMessage) :=
  match outputs[0]?.bind (fun chans => chans[0]?),
      outputs[0]?.bind (fun chans => chans[1]?) with
  | some l, some r =>
    match st.emulator with
    | none => .ok (st, outputs, [])
    | some e =>
      let res := drive e l r sr st.currentFrame
      let newFrame := res.2.2.1.getD st.currentFrame
      let frameMsgs :=
        match res.2.2.1 with
        | some f => [FromNodeMessage.frame f]
        | none => []
      let t' := tickTime sr st.poorMansTime
      let saveMsgs :=
        if t' = 0 then
          match getSaveSnap res.2.2.2 with
          | some (ram, title) => [FromNodeMessage.save ram title]
          | none => []
        else []
      .ok ({ st with
              emulator := some res.2.2.2
              currentFrame := newFrame
              poorMansTime := t'
              sent := st.sent ++ frameMsgs ++ saveMsgs },
        setChans outputs res.1 res.2.1,
        frameMsgs ++ saveMsgs)
  | _, _ => .error "No stereo"

/-- **C3.** If `process` is invoked while no emulation engine has been
instantiated, and the output bus carries its two zero-initialised channel
buffers (the Web Audio API hands `process` zero-filled outputs), then the
callback returns immediately with the state and buffers unchanged, posts
nothing, does not throw, and both channels still contain only zeros. -/
theorem process_no_engine {α : Type} [Zero α] (drive : DriveFn α)
    (getSaveSnap : GetSaveFn) (sr : ℚ) (st : HostState)
    (outputs : List (List (List α))) (l r : List α)
    (hemu : st.emulator = none)
    (hl : outputs[0]?.bind (fun chans => chans[0]?) = some l)
    (hr : outputs[0]?.bind (fun chans => chans[1]?) = some r)
    (hzl : ∀ x ∈ l, x = 0) (hzr : ∀ x ∈ r, x = 0) :
    process drive getSaveSnap sr st outputs = .ok (st, outputs, []) ∧
      (∀ x ∈ l, x = 0) ∧ (∀ x ∈ r, x = 0) := by
  refine ⟨?_, hzl, hzr⟩
  unfold process
  rw [hl, hr, hemu]

/-- Witness for `process_no_engine`: a host with no engine, one stereo bus
of zero samples. -/
theorem process_no_engine_witness :
    (⟨none, [], 0, []⟩ : HostState).emulator = none ∧
      (process (fun e l r _ _ => (l, r, none, e)) (fun _ => none) 48000
          ⟨none, [], 0, []⟩ ([[[0, 0], [0, 0]]] : List (List (List ℤ))) =
        .ok (⟨none, [], 0, []⟩, [[[0, 0], [0, 0]]], []) ∧
        (∀ x ∈ ([0, 0] : List ℤ), x = 0) ∧ ∀ x ∈ ([0, 0] : List ℤ), x = 0) :=
  ⟨rfl,
    process_no_engine (fun e l r _ _ => (l, r, none, e)) (fun _ => none) 48000
      ⟨none, [], 0, []⟩ [[[0, 0], [0, 0]]] [0, 0] [0, 0] rfl rfl rfl
      (by decide) (by decide)⟩

/-- **C10.** A `rom` message delivered while the emulator is not yet
instantiated is silently discarded: the handler is the identity on the
host state (no error, nothing buffered). Consequently, for any run in
which every `rom` message precedes the `wasm` engine payload, the engine
ends with no ROM ever loaded. -/
theorem rom_before_engine_discarded :
    (∀ (s : HostState) (bytes : Bytes) (save : Option Bytes),
      s.emulator = none → hostOnMessage s (.rom bytes save) = s) ∧
    ∀ (roms : List (Bytes × Option Bytes)) (w : Bytes)
        (rest : List FromMainMessage),
      (∀ m ∈ rest, m.isRomMsg = false) →
      (runHost hostInit
          (roms.map (fun p => .rom p.1 p.2) ++ .wasm w :: rest)).emulator.map
        WebEmulator.loadedRom = some none := by
  have hdiscard : ∀ (s : HostState) (bytes : Bytes) (save : Option Bytes),
      s.emulator = none → hostOnMessage s (.rom bytes save) = s := by
    intro s bytes save hs
    unfold hostOnMessage
    rw [hs]
  refine ⟨hdiscard, ?_⟩
  intro roms w rest hrest
  have hroms : ∀ s : HostState, s.emulator = none →
      (roms.map (fun p : Bytes × Option Bytes => FromMainMessage.rom p.1 p.2)).foldl
        hostOnMessage s = s := by
    induction roms with
    | nil => intro s _; rfl
    | cons p ps ih =>
      intro s hs
      rw [List.map_cons, List.foldl_cons, hdiscard s p.1 p.2 hs]
      exact ih s hs
  have hkeep : ∀ (msgs : List FromMainMessage),
      (∀ m ∈ msgs, m.isRomMsg = false) →
      ∀ s : HostState, s.emulator.map WebEmulator.loadedRom = some none →
        (msgs.foldl hostOnMessage s).emulator.map WebEmulator.loadedRom =
          some none := by
    intro msgs
    induction msgs with
    | nil => intro _ s hs; exact hs
    | cons m ms ih =>
      intro hm s hs
      rw [List.foldl_cons]
      refine ih (fun x hx => hm x (List.mem_cons_of_mem m hx)) _ ?_
      obtain ⟨e, he, hrom⟩ : ∃ e, s.emulator = some e ∧ e.loadedRom = none := by
        cases hse : s.emulator with
        | none => rw [hse] at hs; simp at hs
        | some e =>
          rw [hse] at hs
          exact ⟨e, rfl, Option.some.inj hs⟩
      cases m with
      | rom bytes save =>
        exact Bool.noConfusion
          ((rfl : (FromMainMessage.rom bytes save).isRomMsg = true).symm.trans
            (hm _ (List.mem_cons_self _ _)))
      | wasm bytes => rfl
      | input ev btn => simp [hostOnMessage, he, WebEmulator.setButton, hrom]
      | disableMessages => exact hs
      | enableMessages => exact hs
  unfold runHost
  rw [List.foldl_append]
  rw [hroms hostInit rfl, List.foldl_cons]
  refine hkeep rest hrest _ ?_
  simp [hostOnMessage, hostInit]

/-- Witness for `rom_before_engine_discarded`: one early ROM, then the
engine payload, then an input. -/
theorem rom_before_engine_discarded_witness :
    hostInit.emulator = none ∧
      hostOnMessage hostInit (.rom [1] none) = hostInit ∧
      (∀ m ∈ ([.input .down .a] : List FromMainMessage), m.isRomMsg = false) ∧
      (runHost hostInit
          (([([1], none)] : List (Bytes × Option Bytes)).map
              (fun p => .rom p.1 p.2) ++
            .wasm [0] :: [.input .down .a])).emulator.map
        WebEmulator.loadedRom = some none :=
  ⟨rfl,
    rom_before_engine_discarded.1 hostInit [1] none rfl,
    by decide,
    rom_before_engine_discarded.2 [([1], none)] [0] [.input .down .a] (by decide)⟩

/-! ### Autosave timing (claim C4) -/

/-- **C4, counterexample.** The claim says that at any two different sample
rates the wrap-around quantum count differs but the elapsed wall-clock time
between autosaves is identical. At 48000 Hz the counter wraps every 1875
quanta, which is exactly 5 s; at 44100 Hz it wraps every
`round(44100 / 128 * 5) = 1723` quanta, which is `1723 * 128 / 44100 =
55136 / 11025 ≈ 5.00099` s — not the same wall-clock interval. -/
theorem autosave_period_not_rate_independent :
    wrapPeriod 48000 = 1875 ∧ wrapPeriod 44100 = 1723 ∧
      autosavePeriodSeconds 48000 = 5 ∧
      autosavePeriodSeconds 44100 ≠ autosavePeriodSeconds 48000 := by
  have h48 : wrapPeriod 48000 = 1875 := by
    unfold wrapPeriod
    rw [round_eq]
    norm_num
    rfl
  have h44 : wrapPeriod 44100 = 1723 := by
    unfold wrapPeriod
    rw [round_eq]
    norm_num
    rfl
  refine ⟨h48, h44, ?_, ?_⟩
  · unfold autosavePeriodSeconds
    rw [h48]
    norm_num
  · unfold autosavePeriodSeconds
    rw [h48, h44]
    norm_num

/-- **C4, amended.** The autosave counter is advanced once per audio
quantum of 128 frames and wraps after `round(sampleRate / 128 * 5)` quanta;
a save is emitted exactly once per wrap (after `k` quanta, exactly
`k / wrapPeriod` saves have been emitted). The elapsed wall-clock time
between autosaves is within half a quantum (`64 / sampleRate` seconds) of
the fixed 5-second target at every sample rate — approximately, but (as the
counterexample shows) not exactly, independent of the sample rate. -/
theorem autosave_counter_behavior (sr : ℚ) (k : ℕ) (h : 128 ≤ sr) :
    (runCounter sr k).1 = k % wrapPeriod sr ∧
      (runCounter sr k).2 = k / wrapPeriod sr ∧
      |autosavePeriodSeconds sr - 5| ≤ 64 / sr := by
  have hsr0 : (0 : ℚ) < sr := by linarith
  set x := sr / 128 * 5 with hxdef
  have hx5 : (5 : ℚ) ≤ x := by
    rw [hxdef, div_mul_eq_mul_div, le_div_iff₀ (by norm_num : (0:ℚ) < 128)]
    linarith
  have hround5 : (5 : ℤ) ≤ round x := by
    have h1 : x - 1 / 2 < (round x : ℚ) := sub_half_lt_round x
    have h4 : (4 : ℤ) < round x := by
      have : (4 : ℚ) < (round x : ℚ) := by linarith
      exact_mod_cast this
    omega
  have hNZ : ((wrapPeriod sr : ℕ) : ℤ) = round x :=
    Int.toNat_of_nonneg (by rw [← hxdef]; omega)
  have hN5 : 5 ≤ wrapPeriod sr := by omega
  have hcount : ∀ m : ℕ,
      runCounter sr m = (m % wrapPeriod sr, m / wrapPeriod sr) := by
    intro m
    induction m with
    | zero => simp [runCounter]
    | succ n ih =>
      have h1m : 1 % wrapPeriod sr = 1 := Nat.mod_eq_of_lt (by omega)
      have hmod : tickTime sr (n % wrapPeriod sr) = (n + 1) % wrapPeriod sr := by
        unfold tickTime
        conv_rhs => rw [Nat.add_mod, h1m]
      simp only [runCounter, ih]
      rw [hmod]
      by_cases hdvd : wrapPeriod sr ∣ (n + 1)
      · rw [if_pos (Nat.dvd_iff_mod_eq_zero.mp hdvd),
          Nat.succ_div_of_dvd hdvd]
      · rw [if_neg (fun hc =>
            hdvd (Nat.dvd_iff_mod_eq_zero.mpr hc)),
          Nat.succ_div_of_not_dvd hdvd]
  have hcast : ((wrapPeriod sr : ℕ) : ℚ) = ((round x : ℤ) : ℚ) := by
    exact_mod_cast hNZ
  have hx128 : x * 128 = 5 * sr := by
    rw [hxdef]
    field_simp
    ring
  have key : autosavePeriodSeconds sr - 5 = (((round x : ℤ) : ℚ) - x) * 128 / sr := by
    unfold autosavePeriodSeconds
    rw [hcast]
    field_simp
    linarith [hx128]
  have hb : |((round x : ℤ) : ℚ) - x| ≤ 1 / 2 := by
    have hr := abs_sub_round x
    rw [abs_sub_comm] at hr
    exact hr
  have habs : |autosavePeriodSeconds sr - 5| ≤ 64 / sr := by
    rw [key, abs_div, abs_of_pos hsr0, abs_mul,
      show |(128 : ℚ)| = 128 by norm_num]
    calc |((round x : ℤ) : ℚ) - x| * 128 / sr
        ≤ 1 / 2 * 128 / sr := by gcongr
      _ = 64 / sr := by ring
  exact ⟨by rw [hcount k], by rw [hcount k], habs⟩

/-- Witness for `autosave_counter_behavior` at sample rate 128 (wrap period
5 quanta) after 7 quanta. -/
theorem autosave_counter_behavior_witness :
    (128 : ℚ) ≤ 128 ∧
      ((runCounter 128 7).1 = 7 % wrapPeriod 128 ∧
        (runCounter 128 7).2 = 7 / wrapPeriod 128 ∧
        |autosavePeriodSeconds 128 - 5| ≤ 64 / 128) :=
  ⟨le_refl _, autosave_counter_behavior 128 7 (le_refl _)⟩

/-! ## The on-screen directional pad

```ts
function applyDpadState(newDpadState) {
  for (const [before, now, button] of [
    [dpadState.left, newDpadState.left, "left"],
    [dpadState.right, newDpadState.right, "right"],
    [dpadState.up, newDpadState.up, "up"],
    [dpadState.down, newDpadState.down, "down"],
  ] as const) {
    if (before === now) continue;
    port.postMessage({ type: "input", event: now ? "down" : "up", button });
  }
  dpadState = newDpadState;
}
```
with `handlePress` computing the zone from the normalized pointer position
(`x < 1/3`, `x > 2/3`, `y < 1/3`, `y > 2/3`) and `cancelPointer` applying
the all-false state. Positions are modelled as fractions of the pad's
bounding rectangle, so "inside" is `0 ≤ x ≤ 1 ∧ 0 ≤ y ≤ 1`.
-/

/-- The 4-bit zone state tracked by the directional pad. -/
structure DpadState where
  left : Bool
  right : Bool
  up : Bool
  down : Bool
  deriving DecidableEq, Repr

/-- The neutral (all-false) zone state. -/
def dpadNeutral : DpadState := ⟨false, false, false, false⟩

/-- One iteration of the diff loop: emit nothing if the boolean did not
flip, otherwise a down message if it became true, an up message if false. -/
def dpadDiff (before now : Bool) (btn : GebehButton) : List FromMainMessage :=
  if before = now then [] else [.input (if now then .down else .up) btn]

/-- The diff loop of `applyDpadState`, in source order: left, right, up,
down. -/
def applyDpadState (old new : DpadState) : List FromMainMessage :=
  dpadDiff old.left new.left .left ++ dpadDiff old.right new.right .right ++
    dpadDiff old.up new.up .up ++ dpadDiff old.down new.down .down

/-- The zone derived from a normalized pointer position over the pad. -/
def zoneOf (x y : ℚ) : DpadState :=
  ⟨decide (x < 1 / 3), decide (x > 2 / 3), decide (y < 1 / 3), decide (y > 2 / 3)⟩

/-- The pad's mutable state (`isPointerDown`, `dpadState`) plus the trace
of posted input messages. -/
structure PadState where
  isPointerDown : Bool
  dpadState : DpadState
  emitted : List FromMainMessage
  deriving DecidableEq, Repr

/-- Post the diff messages for a new zone state and store it. -/
def applyTo (s : PadState) (new : DpadState) : PadState :=
  { s with
      dpadState := new
      emitted := s.emitted ++ applyDpadState s.dpadState new }

/-- `cancelPointer`: clear `isPointerDown`, release capture, apply the
all-false state. -/
def cancelPointer (s : PadState) : PadState :=
  applyTo { s with isPointerDown := false } dpadNeutral

/-- `handlePress`: ignore if the pointer is not down; cancel if the pointer
left the pad; otherwise apply the zone of the position. -/
def handlePress (s : PadState) (x y : ℚ) : PadState :=
  if s.isPointerDown = false then s
  else if ¬(0 ≤ x ∧ x ≤ 1 ∧ 0 ≤ y ∧ y ≤ 1) then cancelPointer s
  else applyTo s (zoneOf x y)

/-- A pointer event over the pad, positions normalized to its rectangle. -/
inductive PadEvent
  | pdown (x y : ℚ)
  | pmove (x y : ℚ)
  | pup
  | pcancel

/-- The pad's event listeners. -/
def padStep (s : PadState) : PadEvent → PadState
  | .pdown x y => handlePress { s with isPointerDown := true } x y
  | .pmove x y => handlePress s x y
  | .pup => cancelPointer s
  | .pcancel => cancelPointer s

/-- Run a pointer-event script from the initial pad state. -/
def runPad (evs : List PadEvent) : PadState :=
  evs.foldl padStep ⟨false, dpadNeutral, []⟩

/-- The scripted drag of the claim: press in the "up" zone, drag straight
to the "right" zone, release (neutral). -/
def dragUpRightScript : List PadEvent :=
  [.pdown (1 / 2) (1 / 6), .pmove (5 / 6) (1 / 2), .pup]

/-- Evaluation of the scripted drag: the final pad state, with the exact
emitted trace. Proved by stepping the three pointer events. -/
theorem dpad_script_eval :
    runPad dragUpRightScript =
      ⟨false, dpadNeutral,
        [.input .down .up, .input .down .right, .input .up .up,
          .input .up .right]⟩ := by
  have hz1 : zoneOf (1 / 2) (1 / 6) = ⟨false, false, true, false⟩ := by
    unfold zoneOf
    norm_num
  have hz2 : zoneOf (5 / 6) (1 / 2) = ⟨false, true, false, false⟩ := by
    unfold zoneOf
    norm_num
  show padStep (padStep (padStep ⟨false, dpadNeutral, []⟩
      (.pdown (1 / 2) (1 / 6))) (.pmove (5 / 6) (1 / 2))) .pup = _
  have s1 : padStep ⟨false, dpadNeutral, []⟩ (.pdown (1 / 2) (1 / 6)) =
      ⟨true, ⟨false, false, true, false⟩, [.input .down .up]⟩ := by
    norm_num [padStep, handlePress, hz1, applyTo, applyDpadState, dpadDiff,
      dpadNeutral]
  have s2 : padStep ⟨true, ⟨false, false, true, false⟩, [.input .down .up]⟩
        (.pmove (5 / 6) (1 / 2)) =
      ⟨true, ⟨false, true, false, false⟩,
        [.input .down .up, .input .down .right, .input .up .up]⟩ := by
    norm_num [padStep, handlePress, hz2, applyTo, applyDpadState, dpadDiff]
  have s3 : padStep ⟨true, ⟨false, true, false, false⟩,
        [.input .down .up, .input .down .right, .input .up .up]⟩ .pup =
      ⟨false, dpadNeutral,
        [.input .down .up, .input .down .right, .input .up .up,
          .input .up .right]⟩ := by
    norm_num [padStep, cancelPointer, applyTo, applyDpadState, dpadDiff,
      dpadNeutral]
  rw [s1, s2, s3]

/-- **C5, counterexample.** The claim says the drag from "up" to "right"
to neutral emits up-down, up-up, right-down, right-up, the up-release
before the right-press. The diff loop iterates in the fixed order left,
right, up, down, so the direct up→right transition emits the right-press
**before** the up-release: the actual trace is up-down, right-down, up-up,
right-up. -/
theorem dpad_drag_emits_right_before_up_release :
    (runPad dragUpRightScript).emitted =
      [.input .down .up, .input .down .right, .input .up .up, .input .up .right] ∧
      (runPad dragUpRightScript).emitted ≠
        [.input .down .up, .input .up .up, .input .down .right, .input .up .right] := by
  rw [dpad_script_eval]
  refine ⟨rfl, by decide⟩

/-- **C5, amended.** The directional pad only emits an input message when
one of the four zone booleans flips (an unchanged zone state emits
nothing, and a message is emitted for a direction exactly when its boolean
flips), and for the scripted drag from the "up" zone to the "right" zone
to neutral it emits exactly up-down, right-down, up-up, right-up — the
right-press before the up-release, because the diff loop runs in the fixed
order left, right, up, down — with no duplicate messages and no missing
release on exiting to neutral. -/
theorem dpad_flip_only_and_drag_trace :
    (∀ l r u d l' r' u' d' : Bool,
      applyDpadState ⟨l, r, u, d⟩ ⟨l', r', u', d'⟩ = [] ↔
        l = l' ∧ r = r' ∧ u = u' ∧ d = d') ∧
    (runPad dragUpRightScript).emitted =
      [.input .down .up, .input .down .right, .input .up .up, .input .up .right] ∧
    (runPad dragUpRightScript).emitted.Nodup ∧
    (runPad dragUpRightScript).dpadState = dpadNeutral := by
  rw [dpad_script_eval]
  refine ⟨by decide, rfl, by decide, rfl⟩

/-! ## The persistence adapter (`saves.ts`)

```ts
export async function writeSave(title: string, buffer: ArrayBuffer) {
  const database = await getDatabase();
  const request = database.transaction(OBJECT_STORE_NAME, "readwrite")
    .objectStore(OBJECT_STORE_NAME).put(buffer, title);
  await waitRequest(request);
}

export async function getSave(title: string): Promise<ArrayBuffer | undefined> {
  ...
  const request = ....objectStore(OBJECT_STORE_NAME).get(title);
  await waitRequest(request);
  const result: unknown = request.result;
  if (result === undefined || result instanceof ArrayBuffer) return result;
  throw new Error("Unknown object from db for title " + title);
}
```
The IndexedDB object store itself is external (the spec treats it as a
get/put key-value capability); it is modelled as a `String → Option Bytes`
map, `put(value, key)` as pointwise update and `get(key)` as lookup, with
a never-written key mapping to `none` (IndexedDB's `undefined` result). -/

/-- The `"saves"` object store: a key → binary-blob map. -/
def ObjectStore := String → Option Bytes

/-- A store in which no title was ever written. -/
def emptyStore : ObjectStore := fun _ => none

/-- `writeSave(title, buffer)`: `put(buffer, title)` on the store. -/
def writeSave (store : ObjectStore) (title : String) (buffer : Bytes) :
    ObjectStore :=
  fun t => if t = title then some buffer else store t

/-- `getSave(title)`: `get(title)`; `undefined` (modelled `none`) for an
absent key, the stored blob otherwise. Every value in the store model is a
blob, so the `instanceof ArrayBuffer` check passes and the
`"Unknown object"` throw is unreachable. -/
def getSave (store : ObjectStore) (title : String) :
    Except String (Option Bytes) :=
  match store title with
  | none => .ok none
  | some result => .ok (some result)

/-- **C9.** For every store, title and blob, `put` then `get` on that title
returns a byte-identical blob, and `get` on a never-written title returns
the explicit absent value (`undefined`, modelled `none`) rather than an
error. -/
theorem save_roundtrip (store : ObjectStore) (title : String) (buffer : Bytes) :
    getSave (writeSave store title buffer) title = .ok (some buffer) ∧
      getSave emptyStore title = .ok none := by
  constructor
  · unfold getSave writeSave
    simp
  · rfl

/-! ## Cartridge title extraction (`getTitleFromRom`)

```ts
function getTitleFromRom(rom: Uint8Array): string {
  const title = rom.slice(0x134, 0x143);
  let endZeroPos = title.indexOf(0);
  if (endZeroPos === -1) {
    endZeroPos = title.length;
  }
  const decoder = new TextDecoder("utf-8", { fatal: true });
  return decoder.decode(title.slice(0, endZeroPos));
}
```
`TextDecoder("utf-8", { fatal: true })` is the WHATWG strict UTF-8
decoder: it throws exactly when the input is not well-formed UTF-8
(overlong encodings, surrogates and values above U+10FFFF rejected). It is
embedded below as `utf8Decode`, returning code points, with `none` for the
throw. -/

/-- One step of the WHATWG UTF-8 decoder: given the first byte and the
remaining bytes, the decoded scalar value and the rest of the input, or
`none` on malformed input. The first-continuation-byte bounds encode the
rejection of overlong forms (`0xE0`/`0xF0` rows), surrogates (`0xED` row)
and values above U+10FFFF (`0xF4` row and first bytes `≥ 0xF5`). -/
def decode1 (b : ℕ) (bs : Bytes) : Option (ℕ × Bytes) :=
  if b < 0x80 then some (b, bs)
  else if b < 0xC2 then none
  else if b < 0xE0 then
    match bs with
    | b1 :: bs' =>
      if 0x80 ≤ b1 ∧ b1 < 0xC0 then
        some ((b - 0xC0) * 64 + (b1 - 0x80), bs')
      else none
    | [] => none
  else if b < 0xF0 then
    match bs with
    | b1 :: b2 :: bs' =>
      if (if b = 0xE0 then 0xA0 else 0x80) ≤ b1 ∧
          b1 < (if b = 0xED then 0xA0 else 0xC0) ∧
          0x80 ≤ b2 ∧ b2 < 0xC0 then
        some ((b - 0xE0) * 4096 + (b1 - 0x80) * 64 + (b2 - 0x80), bs')
      else none
    | _ => none
  else if b < 0xF5 then
    match bs with
    | b1 :: b2 :: b3 :: bs' =>
      if (if b = 0xF0 then 0x90 else 0x80) ≤ b1 ∧
          b1 < (if b = 0xF4 then 0x90 else 0xC0) ∧
          0x80 ≤ b2 ∧ b2 < 0xC0 ∧ 0x80 ≤ b3 ∧ b3 < 0xC0 then
        some ((b - 0xF0) * 262144 + (b1 - 0x80) * 4096 +
          (b2 - 0x80) * 64 + (b3 - 0x80), bs')
      else none
    | _ => none
  else none

theorem decode1_inv {b : ℕ} {bs bs' : Bytes} {c : ℕ}
    (h : decode1 b bs = some (c, bs')) :
    (b < 0x80 ∧ c = b ∧ bs' = bs) ∨
    (∃ b1, bs = b1 :: bs' ∧ 0xC2 ≤ b ∧ b < 0xE0 ∧ 0x80 ≤ b1 ∧ b1 < 0xC0 ∧
      c = (b - 0xC0) * 64 + (b1 - 0x80)) ∨
    (∃ b1 b2, bs = b1 :: b2 :: bs' ∧ 0xE0 ≤ b ∧ b < 0xF0 ∧
      (if b = 0xE0 then 0xA0 else 0x80) ≤ b1 ∧
      b1 < (if b = 0xED then 0xA0 else 0xC0) ∧ 0x80 ≤ b2 ∧ b2 < 0xC0 ∧
      c = (b - 0xE0) * 4096 + (b1 - 0x80) * 64 + (b2 - 0x80)) ∨
    (∃ b1 b2 b3, bs = b1 :: b2 :: b3 :: bs' ∧ 0xF0 ≤ b ∧ b < 0xF5 ∧
      (if b = 0xF0 then 0x90 else 0x80) ≤ b1 ∧
      b1 < (if b = 0xF4 then 0x90 else 0xC0) ∧ 0x80 ≤ b2 ∧ b2 < 0xC0 ∧
      0x80 ≤ b3 ∧ b3 < 0xC0 ∧
      c = (b - 0xF0) * 262144 + (b1 - 0x80) * 4096 + (b2 - 0x80) * 64 +
        (b3 - 0x80)) := by
  unfold decode1 at h
  by_cases h80 : b < 0x80
  · rw [if_pos h80] at h
    simp only [Option.some.injEq, Prod.mk.injEq] at h
    exact Or.inl ⟨h80, h.1.symm, h.2.symm⟩
  · rw [if_neg h80] at h
    by_cases hC2 : b < 0xC2
    · rw [if_pos hC2] at h
      exact absurd h (by simp)
    · rw [if_neg hC2] at h
      by_cases hE0 : b < 0xE0
      · rw [if_pos hE0] at h
        cases bs with
        | nil => exact absurd h (by simp)
        | cons b1 bs1 =>
          by_cases hcond : 0x80 ≤ b1 ∧ b1 < 0xC0
          · simp only [if_pos hcond] at h
            simp only [Option.some.injEq, Prod.mk.injEq] at h
            refine Or.inr (Or.inl ⟨b1, ?_, by omega, hE0, hcond.1, hcond.2,
              h.1.symm⟩)
            rw [h.2]
          · simp only [if_neg hcond] at h
            exact absurd h (by simp)
      · rw [if_neg hE0] at h
        by_cases hF0 : b < 0xF0
        · rw [if_pos hF0] at h
          cases bs with
          | nil => exact absurd h (by simp)
          | cons b1 bs1 =>
            cases bs1 with
            | nil => exact absurd h (by simp)
            | cons b2 bs2 =>
              by_cases hcond : (if b = 0xE0 then 0xA0 else 0x80) ≤ b1 ∧
                  b1 < (if b = 0xED then 0xA0 else 0xC0) ∧ 0x80 ≤ b2 ∧ b2 < 0xC0
              · simp only [if_pos hcond] at h
                simp only [Option.some.injEq, Prod.mk.injEq] at h
                refine Or.inr (Or.inr (Or.inl ⟨b1, b2, ?_, by omega, hF0,
                  hcond.1, hcond.2.1, hcond.2.2.1, hcond.2.2.2, h.1.symm⟩))
                rw [h.2]
              · simp only [if_neg hcond] at h
                exact absurd h (by simp)
        · rw [if_neg hF0] at h
          by_cases hF5 : b < 0xF5
          · rw [if_pos hF5] at h
            cases bs with
            | nil => exact absurd h (by simp)
            | cons b1 bs1 =>
              cases bs1 with
              | nil => exact absurd h (by simp)
              | cons b2 bs2 =>
                cases bs2 with
                | nil => exact absurd h (by simp)
                | cons b3 bs3 =>
                  by_cases hcond : (if b = 0xF0 then 0x90 else 0x80) ≤ b1 ∧
                      b1 < (if b = 0xF4 then 0x90 else 0xC0) ∧ 0x80 ≤ b2 ∧
                      b2 < 0xC0 ∧ 0x80 ≤ b3 ∧ b3 < 0xC0
                  · simp only [if_pos hcond] at h
                    simp only [Option.some.injEq, Prod.mk.injEq] at h
                    refine Or.inr (Or.inr (Or.inr ⟨b1, b2, b3, ?_, by omega,
                      hF5, hcond.1, hcond.2.1, hcond.2.2.1, hcond.2.2.2.1,
                      hcond.2.2.2.2.1, hcond.2.2.2.2.2, h.1.symm⟩))
                    rw [h.2]
                  · simp only [if_neg hcond] at h
                    exact absurd h (by simp)
          · rw [if_neg hF5] at h
            exact absurd h (by simp)

theorem decode1_length {b : ℕ} {bs bs' : Bytes} {c : ℕ}
    (h : decode1 b bs = some (c, bs')) : bs'.length ≤ bs.length := by
  rcases decode1_inv h with ⟨_, _, rfl⟩ | ⟨b1, rfl, _⟩ |
    ⟨b1, b2, rfl, _⟩ | ⟨b1, b2, b3, rfl, _⟩ <;> simp <;> omega

/-- A Unicode scalar value: a code point that is not a surrogate. -/
def IsScalar (c : ℕ) : Prop :=
  c < 0x110000 ∧ ¬(0xD800 ≤ c ∧ c < 0xE000)

instance (c : ℕ) : Decidable (IsScalar c) := by
  unfold IsScalar
  infer_instance

/-- The unique well-formed UTF-8 encoding of a scalar value. -/
def encodeScalar (c : ℕ) : Bytes :=
  if c < 0x80 then [c]
  else if c < 0x800 then [0xC0 + c / 64, 0x80 + c % 64]
  else if c < 0x10000 then
    [0xE0 + c / 4096, 0x80 + c / 64 % 64, 0x80 + c % 64]
  else
    [0xF0 + c / 262144, 0x80 + c / 4096 % 64, 0x80 + c / 64 % 64,
      0x80 + c % 64]

theorem decode1_sound {b : ℕ} {bs bs' : Bytes} {c : ℕ}
    (h : decode1 b bs = some (c, bs')) :
    IsScalar c ∧ b :: bs = encodeScalar c ++ bs' := by
  rcases decode1_inv h with ⟨h80, rfl, rfl⟩ |
    ⟨b1, rfl, hb, hb', h1, h1', rfl⟩ |
    ⟨b1, b2, rfl, hb, hb', h1, h1', h2, h2', rfl⟩ |
    ⟨b1, b2, b3, rfl, hb, hb', h1, h1', h2, h2', h3, h3', rfl⟩
  · refine ⟨⟨by omega, by omega⟩, ?_⟩
    have he : encodeScalar c = [c] := by
      unfold encodeScalar
      rw [if_pos h80]
    rw [he]
    rfl
  · refine ⟨⟨by omega, by omega⟩, ?_⟩
    have he : encodeScalar ((b - 0xC0) * 64 + (b1 - 0x80)) = [b, b1] := by
      unfold encodeScalar
      rw [if_neg (by omega), if_pos (by omega)]
      simp only [List.cons.injEq, and_true]
      exact ⟨by omega, by omega⟩
    rw [he]
    rfl
  · have he3 : ∀ d : ℕ, 0x800 ≤ d → d < 0x10000 → 0x80 ≤ b1 → b1 < 0xC0 →
        d / 4096 = b - 0xE0 → d / 64 % 64 = b1 - 0x80 → d % 64 = b2 - 0x80 →
        encodeScalar d = [b, b1, b2] := by
      intro d hd1 hd2 hb1 hb1' hq hm1 hm0
      unfold encodeScalar
      rw [if_neg (by omega), if_neg (by omega), if_pos hd2]
      simp only [List.cons.injEq, and_true]
      exact ⟨by omega, by omega, by omega⟩
    by_cases hE : b = 0xE0
    · rw [if_pos hE] at h1
      rw [if_neg (by omega : ¬ b = 0xED)] at h1'
      refine ⟨⟨by omega, by omega⟩, ?_⟩
      rw [he3 _ (by omega) (by omega) (by omega) (by omega) (by omega) (by omega) (by omega)]
      rfl
    · by_cases hD : b = 0xED
      · rw [if_neg hE] at h1
        rw [if_pos hD] at h1'
        refine ⟨⟨by omega, by omega⟩, ?_⟩
        rw [he3 _ (by omega) (by omega) (by omega) (by omega) (by omega) (by omega) (by omega)]
        rfl
      · rw [if_neg hE] at h1
        rw [if_neg hD] at h1'
        refine ⟨⟨by omega, by omega⟩, ?_⟩
        rw [he3 _ (by omega) (by omega) (by omega) (by omega) (by omega) (by omega) (by omega)]
        rfl
  · have he4 : ∀ d : ℕ, 0x10000 ≤ d → 0x80 ≤ b1 → b1 < 0xC0 →
        d / 262144 = b - 0xF0 → d / 4096 % 64 = b1 - 0x80 →
        d / 64 % 64 = b2 - 0x80 → d % 64 = b3 - 0x80 →
        encodeScalar d = [b, b1, b2, b3] := by
      intro d hd1 hb1 hb1' hq hm2 hm1 hm0
      unfold encodeScalar
      rw [if_neg (by omega), if_neg (by omega), if_neg (by omega)]
      simp only [List.cons.injEq, and_true]
      exact ⟨by omega, by omega, by omega, by omega⟩
    by_cases hE : b = 0xF0
    · rw [if_pos hE] at h1
      rw [if_neg (by omega : ¬ b = 0xF4)] at h1'
      refine ⟨⟨by omega, by omega⟩, ?_⟩
      rw [he4 _ (by omega) (by omega) (by omega) (by omega) (by omega) (by omega) (by omega)]
      rfl
    · by_cases hD : b = 0xF4
      · rw [if_neg hE] at h1
        rw [if_pos hD] at h1'
        refine ⟨⟨by omega, by omega⟩, ?_⟩
        rw [he4 _ (by omega) (by omega) (by omega) (by omega) (by omega) (by omega) (by omega)]
        rfl
      · rw [if_neg hE] at h1
        rw [if_neg hD] at h1'
        refine ⟨⟨by omega, by omega⟩, ?_⟩
        rw [he4 _ (by omega) (by omega) (by omega) (by omega) (by omega) (by omega) (by omega)]
        rfl

theorem decode1_encode (c : ℕ) (hc : IsScalar c) (rest : Bytes) :
    ∃ b bs, encodeScalar c ++ rest = b :: bs ∧ decode1 b bs = some (c, rest) := by
  obtain ⟨hlt, hsur⟩ := hc
  by_cases h80 : c < 0x80
  · refine ⟨c, rest, ?_, ?_⟩
    · unfold encodeScalar
      rw [if_pos h80]
      rfl
    · unfold decode1
      rw [if_pos h80]
  · by_cases h800 : c < 0x800
    · refine ⟨0xC0 + c / 64, (0x80 + c % 64) :: rest, ?_, ?_⟩
      · unfold encodeScalar
        rw [if_neg h80, if_pos h800]
        rfl
      · unfold decode1
        rw [if_neg (by omega), if_neg (by omega), if_pos (by omega)]
        have hguard : 0x80 ≤ 0x80 + c % 64 ∧ 0x80 + c % 64 < 0xC0 :=
          ⟨by omega, by omega⟩
        simp only [if_pos hguard]
        have hval : (0xC0 + c / 64 - 0xC0) * 64 + (0x80 + c % 64 - 0x80) = c := by
          omega
        rw [hval]
    · by_cases h10000 : c < 0x10000
      · refine ⟨0xE0 + c / 4096,
          (0x80 + c / 64 % 64) :: (0x80 + c % 64) :: rest, ?_, ?_⟩
        · unfold encodeScalar
          rw [if_neg h80, if_neg h800, if_pos h10000]
          rfl
        · unfold decode1
          rw [if_neg (by omega), if_neg (by omega), if_neg (by omega),
            if_pos (by omega)]
          have hguard : (if 0xE0 + c / 4096 = 0xE0 then 0xA0 else 0x80) ≤
              0x80 + c / 64 % 64 ∧
              0x80 + c / 64 % 64 < (if 0xE0 + c / 4096 = 0xED then 0xA0 else 0xC0) ∧
              0x80 ≤ 0x80 + c % 64 ∧ 0x80 + c % 64 < 0xC0 := by
            refine ⟨?_, ?_, by omega, by omega⟩
            · by_cases hE : 0xE0 + c / 4096 = 0xE0
              · rw [if_pos hE]
                omega
              · rw [if_neg hE]
                omega
            · by_cases hD : 0xE0 + c / 4096 = 0xED
              · rw [if_pos hD]
                omega
              · rw [if_neg hD]
                omega
          simp only [if_pos hguard]
          have hval : (0xE0 + c / 4096 - 0xE0) * 4096 +
              (0x80 + c / 64 % 64 - 0x80) * 64 + (0x80 + c % 64 - 0x80) = c := by
            omega
          rw [hval]
      · refine ⟨0xF0 + c / 262144,
          (0x80 + c / 4096 % 64) :: (0x80 + c / 64 % 64) ::
            (0x80 + c % 64) :: rest, ?_, ?_⟩
        · unfold encodeScalar
          rw [if_neg h80, if_neg h800, if_neg h10000]
          rfl
        · unfold decode1
          rw [if_neg (by omega), if_neg (by omega), if_neg (by omega),
            if_neg (by omega), if_pos (by omega)]
          have hguard : (if 0xF0 + c / 262144 = 0xF0 then 0x90 else 0x80) ≤
              0x80 + c / 4096 % 64 ∧
              0x80 + c / 4096 % 64 <
                (if 0xF0 + c / 262144 = 0xF4 then 0x90 else 0xC0) ∧
              0x80 ≤ 0x80 + c / 64 % 64 ∧ 0x80 + c / 64 % 64 < 0xC0 ∧
              0x80 ≤ 0x80 + c % 64 ∧ 0x80 + c % 64 < 0xC0 := by
            refine ⟨?_, ?_, by omega, by omega, by omega, by omega⟩
            · by_cases hE : 0xF0 + c / 262144 = 0xF0
              · rw [if_pos hE]
                omega
              · rw [if_neg hE]
                omega
            · by_cases hD : 0xF0 + c / 262144 = 0xF4
              · rw [if_pos hD]
                omega
              · rw [if_neg hD]
                omega
          simp only [if_pos hguard]
          have hval : (0xF0 + c / 262144 - 0xF0) * 262144 +
              (0x80 + c / 4096 % 64 - 0x80) * 4096 +
              (0x80 + c / 64 % 64 - 0x80) * 64 + (0x80 + c % 64 - 0x80) = c := by
            omega
          rw [hval]

/-- Fuelled recursive-descent UTF-8 decode (the fuel only bounds the
recursion depth; `utf8DecodeF_eq` shows any fuel at least the input length
gives the same result). -/
def utf8DecodeF : ℕ → Bytes → Option (List ℕ)
  | _, [] => some []
  | 0, _ :: _ => none
  | fuel + 1, b :: bs =>
    match decode1 b bs with
    | none => none
    | some (c, bs') => (utf8DecodeF fuel bs').map (c :: ·)

/-- Strict UTF-8 decode of a byte sequence into code points — the model of
`TextDecoder("utf-8", \x7b fatal: true \x7d).decode`; `none` models the
throw. -/
def utf8Decode (bs : Bytes) : Option (List ℕ) :=
  utf8DecodeF bs.length bs

theorem utf8DecodeF_eq (fuel : ℕ) :
    ∀ (fuel' : ℕ) (bs : Bytes), bs.length ≤ fuel → bs.length ≤ fuel' →
      utf8DecodeF fuel bs = utf8DecodeF fuel' bs := by
  induction fuel with
  | zero =>
    intro fuel' bs h h'
    cases bs with
    | nil => cases fuel' <;> rfl
    | cons b bs1 => simp at h
  | succ n ih =>
    intro fuel' bs h h'
    cases bs with
    | nil => cases fuel' <;> rfl
    | cons b bs1 =>
      cases fuel' with
      | zero => simp at h'
      | succ m =>
        simp only [utf8DecodeF]
        cases hd : decode1 b bs1 with
        | none => rfl
        | some p =>
          obtain ⟨c, bs2⟩ := p
          have hlen := decode1_length hd
          simp only [List.length_cons] at h h'
          simp only [ih m bs2 (by omega) (by omega)]

/-- One-step unfolding of `utf8Decode`. -/
theorem utf8Decode_cons (b : ℕ) (bs : Bytes) :
    utf8Decode (b :: bs) =
      match decode1 b bs with
      | none => none
      | some (c, bs') => (utf8Decode bs').map (c :: ·) := by
  show utf8DecodeF (b :: bs).length (b :: bs) = _
  simp only [List.length_cons, utf8DecodeF]
  cases hd : decode1 b bs with
  | none => rfl
  | some p =>
    obtain ⟨c, bs'⟩ := p
    have hlen := decode1_length hd
    unfold utf8Decode
    simp only [utf8DecodeF_eq bs.length bs'.length bs' hlen le_rfl]

theorem isSome_map_cons {α β : Type} (f : α → β) (o : Option α) :
    (o.map f).isSome = o.isSome := by
  cases o <;> rfl

/-- Spec-side validity: a byte sequence is valid UTF-8 iff it is a
concatenation of well-formed encodings of scalar values. -/
inductive Utf8ValidSpec : Bytes → Prop
  | nil : Utf8ValidSpec []
  | cons (c : ℕ) (rest : Bytes) : IsScalar c → Utf8ValidSpec rest →
      Utf8ValidSpec (encodeScalar c ++ rest)

theorem valid_of_decode_aux :
    ∀ (n : ℕ) (bs : Bytes), bs.length ≤ n → (utf8Decode bs).isSome →
      Utf8ValidSpec bs := by
  intro n
  induction n with
  | zero =>
    intro bs h _
    cases bs with
    | nil => exact .nil
    | cons b bs1 => simp at h
  | succ m ih =>
    intro bs hlen hs
    cases bs with
    | nil => exact .nil
    | cons b bs1 =>
      rw [utf8Decode_cons] at hs
      cases hd : decode1 b bs1 with
      | none =>
        rw [hd] at hs
        simp at hs
      | some p =>
        obtain ⟨c, bs'⟩ := p
        rw [hd] at hs
        simp only [isSome_map_cons] at hs
        obtain ⟨hscalar, hbytes⟩ := decode1_sound hd
        have hlen' := decode1_length hd
        simp only [List.length_cons] at hlen
        have hv : Utf8ValidSpec bs' := ih bs' (by omega) hs
        rw [hbytes]
        exact .cons c bs' hscalar hv

/-- The decoder succeeds exactly on spec-valid UTF-8 byte sequences. -/
theorem utf8Decode_isSome_iff (bs : Bytes) :
    (utf8Decode bs).isSome ↔ Utf8ValidSpec bs := by
  constructor
  · exact valid_of_decode_aux bs.length bs le_rfl
  · intro h
    induction h with
    | nil => rfl
    | cons c rest hc hrest ih =>
      obtain ⟨b, bsx, heq, hdec⟩ := decode1_encode c hc rest
      rw [heq, utf8Decode_cons, hdec]
      simpa only [isSome_map_cons] using ih

/-- `rom.slice(0x134, 0x143)` — the title region of the ROM header. -/
def titleRegion (rom : Bytes) : Bytes :=
  (rom.drop 0x134).take 15

/-- `title.slice(0, endZeroPos)` with `endZeroPos = title.indexOf(0)` (or
the full length when there is no zero byte): everything before the first
zero byte. -/
def truncAtZero (l : Bytes) : Bytes :=
  l.takeWhile (· ≠ 0)

/-- `getTitleFromRom`: decode the zero-truncated title region strictly;
`none` models the `TextDecoder` throw on invalid UTF-8. -/
def getTitleFromRom (rom : Bytes) : Option (List ℕ) :=
  utf8Decode (truncAtZero (titleRegion rom))


/-- **C8.** For every ROM of plausible header size, the cartridge title key
is computed from the fixed 15-byte region at offset 0x134 (`slice(0x134,
0x143)`), truncated at the first zero byte (all 15 bytes kept when there is
none — `truncAtZero` keeps everything before the first zero), and decoded
as strict UTF-8; the extraction throws (returns `none`) if and only if the
truncated region is not valid UTF-8. -/
theorem title_extraction (rom : Bytes) (h : 0x143 ≤ rom.length) :
    (titleRegion rom).length = 15 ∧
      (getTitleFromRom rom = none ↔
        ¬ Utf8ValidSpec (truncAtZero (titleRegion rom))) := by
  constructor
  · unfold titleRegion
    simp only [List.length_take, List.length_drop]
    omega
  · unfold getTitleFromRom
    rw [← utf8Decode_isSome_iff]
    exact Option.not_isSome_iff_eq_none.symm

/-- Witness for `title_extraction` on a 0x150-byte all-zero ROM: the title
region is 15 bytes, its zero-truncation is empty, and the extraction
succeeds (the empty byte sequence is valid UTF-8). -/
theorem title_extraction_witness :
    0x143 ≤ (List.replicate 0x150 0 : Bytes).length ∧
      ((titleRegion (List.replicate 0x150 0)).length = 15 ∧
        (getTitleFromRom (List.replicate 0x150 0) = none ↔
          ¬ Utf8ValidSpec (truncAtZero (titleRegion (List.replicate 0x150 0))))) :=
  ⟨by simp, title_extraction (List.replicate 0x150 0) (by simp)⟩

end Gebeh
